import Mathlib

/-!
Verification of the flip-opportunity scoring system.

The repository ships the presentation layer (src/streamlit_app.py) verbatim;
the scoring engine it imports (src.scoring_engine: flip_opportunity_score,
filter_opportunities, summarize_by_geography, the strategy registry) is not
part of the visible sources, so those components are modelled here from the
specification.  Numeric values are embedded as rationals; tables are lists of
rows; fallible operations return Except.
-/

namespace Zillow

/-- Error taxonomy of the core (spec section 7).  There is deliberately no
constructor for an empty-universe condition: an empty eligible universe is a
normal result, not an error. -/
inductive ScoringError where
  | invalidRange
  | missingDataset (name : String)
  | unknownStrategy (name : String)
  | invalidStrategy
deriving DecidableEq

/-- Modelled from the spec: a weighting strategy over the five score
components (src.scoring_engine.FlipStrategy is not in the visible sources;
the field names follow the attribute accesses in streamlit_app.py lines
112-116). -/
structure FlipStrategy where
  appreciation_weight : ℚ
  velocity_weight : ℚ
  distress_weight : ℚ
  pricing_power_weight : ℚ
  value_gap_weight : ℚ
deriving DecidableEq

/-- The weight vector of a strategy, indexed by component
(0 = appreciation, 1 = velocity, 2 = distress, 3 = pricing power,
4 = value gap). -/
def FlipStrategy.weights (s : FlipStrategy) : Fin 5 → ℚ
  | 0 => s.appreciation_weight
  | 1 => s.velocity_weight
  | 2 => s.distress_weight
  | 3 => s.pricing_power_weight
  | 4 => s.value_gap_weight

/-- Sum of the five weights. -/
def FlipStrategy.weightSum (s : FlipStrategy) : ℚ :=
  s.appreciation_weight + s.velocity_weight + s.distress_weight +
    s.pricing_power_weight + s.value_gap_weight

/-- The strategy invariant from the spec: all weights nonnegative and the
sum within 1e-6 of 1. -/
def FlipStrategy.Valid (s : FlipStrategy) : Prop :=
  (∀ i : Fin 5, 0 ≤ s.weights i) ∧ |s.weightSum - 1| ≤ 1 / 1000000

instance (s : FlipStrategy) : Decidable s.Valid := by
  unfold FlipStrategy.Valid
  infer_instance

/-- Modelled from the spec: construction-time validation of a custom
strategy; an invalid weight vector fails fast with InvalidStrategyError. -/
def mkFlipStrategy (a v d p g : ℚ) : Except ScoringError FlipStrategy :=
  if FlipStrategy.Valid ⟨a, v, d, p, g⟩ then .ok ⟨a, v, d, p, g⟩
  else .error .invalidStrategy

/-- Modelled from the spec: preset biased toward velocity and distress
(fast turnaround). -/
def FAST_FLIP : FlipStrategy := ⟨15/100, 30/100, 30/100, 15/100, 10/100⟩

/-- Modelled from the spec: preset biased toward value gap and pricing
power (renovation / value-add). -/
def VALUE_ADD_FLIP : FlipStrategy := ⟨15/100, 10/100, 15/100, 25/100, 35/100⟩

/-- Modelled from the spec: the balanced default preset. -/
def BALANCED : FlipStrategy := ⟨20/100, 20/100, 20/100, 20/100, 20/100⟩

/-- One region row of the home-value time-series dataset: region code with
descriptive attributes and the chronologically ordered home value index
observations (a missing observation is none). -/
structure HomeValueRow where
  region_name : String
  city : String
  state : String
  metro : String
  series : List (Option ℚ)
deriving DecidableEq

/-- Modelled from the spec: the dataset mapping consumed by the scoring
engine — the home-value time series plus the per-region snapshot metrics
(days to pending, price-cut percentage, sale count) and the metro-level
reference value used for the value-gap signal. -/
structure Datasets where
  zhvi_zip : List HomeValueRow
  days_to_pending : String → Option ℚ
  price_cut_pct : String → Option ℚ
  sale_count : String → Option ℚ
  metro_value : String → Option ℚ

/-- One output row of the scoring engine (spec section 3, ScoredRegion);
component scores may be missing, the composite never is (all-missing rows
are excluded). -/
structure ScoredRegion where
  region_name : String
  city : String
  state : String
  metro : String
  current_value : ℚ
  appreciation_score : Option ℚ
  velocity_score : Option ℚ
  distress_score : Option ℚ
  pricing_power_score : Option ℚ
  value_gap_score : Option ℚ
  composite_score : ℚ
  appreciation_pct : Option ℚ
  days_to_pending : Option ℚ
  price_cut_pct : Option ℚ
deriving DecidableEq

/-- The five component scores of a row as a vector indexed like
FlipStrategy.weights. -/
def ScoredRegion.componentScores (r : ScoredRegion) : Fin 5 → Option ℚ
  | 0 => r.appreciation_score
  | 1 => r.velocity_score
  | 2 => r.distress_score
  | 3 => r.pricing_power_score
  | 4 => r.value_gap_score

/-- The set of components whose score is present for a row. -/
def presentComponents (sc : Fin 5 → Option ℚ) : Finset (Fin 5) :=
  Finset.univ.filter (fun i => (sc i).isSome)

/-- Modelled from the spec: the composite score with proportional weight
redistribution — the weighted sum over the present components divided by
the sum of their weights; none when all five components are missing. -/
def compositeOf (w : Fin 5 → ℚ) (sc : Fin 5 → Option ℚ) : Option ℚ :=
  if presentComponents sc = ∅ then none
  else if (∑ i ∈ presentComponents sc, w i) = 0 then some 0
  else some ((∑ i ∈ presentComponents sc, w i * (sc i).getD 0) /
    ∑ i ∈ presentComponents sc, w i)

/-- The most recent observation of a region's home value series, none when
the latest observation is missing. -/
def latestValue (hv : HomeValueRow) : Option ℚ :=
  match hv.series.getLast? with
  | some (some v) => some v
  | _ => none

/-- Modelled from the spec: percent change of the home value index over the
trailing 12 observed periods; none when fewer than 12 observed periods
exist for the region. -/
def appreciationPct (hv : HomeValueRow) : Option ℚ :=
  let obs := hv.series.filterMap id
  if 12 ≤ obs.length then
    some (100 * (obs.getD (obs.length - 1) 0 - obs.getD (obs.length - 12) 0) /
      obs.getD (obs.length - 12) 0)
  else none

/-- Modelled from the spec: min-max normalization of a raw value onto the
0-100 scale over the eligible universe's values, clipped to the bounds. -/
def normScore (vals : List ℚ) (x : ℚ) : ℚ :=
  let lo := vals.foldr min x
  let hi := vals.foldr max x
  max 0 (min 100 (100 * (x - lo) / (hi - lo)))

/-- Modelled from the spec: the eligibility universe — each region paired
with its current value (latest observation), kept only when that latest
observation is present and inside the inclusive price band. -/
def eligibleUniverse (zhvi : List HomeValueRow) (lo hi : ℚ) :
    List (HomeValueRow × ℚ) :=
  zhvi.filterMap (fun hv =>
    match latestValue hv with
    | some v => if lo ≤ v ∧ v ≤ hi then some (hv, v) else none
    | none => none)

/-- Raw velocity signal: inverse relationship with days to pending (shorter
time to sale gives a higher raw velocity). -/
def velocityRaw (ds : Datasets) (hv : HomeValueRow) : Option ℚ :=
  (ds.days_to_pending hv.region_name).map (fun d => -d)

/-- Raw distress signal: price-cut percentage (more cut activity gives a
higher distress signal). -/
def distressRaw (ds : Datasets) (hv : HomeValueRow) : Option ℚ :=
  ds.price_cut_pct hv.region_name

/-- Raw pricing-power signal: sale-count momentum. -/
def pricingPowerRaw (ds : Datasets) (hv : HomeValueRow) : Option ℚ :=
  ds.sale_count hv.region_name

/-- Raw value-gap signal: spread between the metro reference value and the
region's current value (regions priced below local peers score higher). -/
def valueGapRaw (ds : Datasets) (hv : HomeValueRow) (v : ℚ) : Option ℚ :=
  (ds.metro_value hv.metro).map (fun m => m - v)

/-- The five normalized component scores of one eligible region, given the
universe's raw-signal value lists used for normalization: each present raw
signal is min-max normalized over its population, each missing raw signal
yields a missing component score. -/
def rawComponents (ds : Datasets) (A B C D E : List ℚ)
    (p : HomeValueRow × ℚ) : Fin 5 → Option ℚ
  | 0 => (appreciationPct p.1).map (normScore A)
  | 1 => (velocityRaw ds p.1).map (normScore B)
  | 2 => (distressRaw ds p.1).map (normScore C)
  | 3 => (pricingPowerRaw ds p.1).map (normScore D)
  | 4 => (valueGapRaw ds p.1 p.2).map (normScore E)

/-- Build the ScoredRegion row for one eligible region given the universe's
raw-signal value lists used for normalization; none when all five
components are missing (the region is skipped). -/
def scoreRow (ds : Datasets) (s : FlipStrategy) (A B C D E : List ℚ)
    (p : HomeValueRow × ℚ) : Option ScoredRegion :=
  match compositeOf s.weights (rawComponents ds A B C D E p) with
  | none => none
  | some c => some
      { region_name := p.1.region_name
        city := p.1.city
        state := p.1.state
        metro := p.1.metro
        current_value := p.2
        appreciation_score := rawComponents ds A B C D E p 0
        velocity_score := rawComponents ds A B C D E p 1
        distress_score := rawComponents ds A B C D E p 2
        pricing_power_score := rawComponents ds A B C D E p 3
        value_gap_score := rawComponents ds A B C D E p 4
        composite_score := c
        appreciation_pct := appreciationPct p.1
        days_to_pending := ds.days_to_pending p.1.region_name
        price_cut_pct := ds.price_cut_pct p.1.region_name }

/-- Boolean lexicographic order on character lists (by code point). -/
def lexLeb : List Char → List Char → Bool
  | [], _ => true
  | _ :: _, [] => false
  | a :: as, b :: bs =>
    if a.toNat < b.toNat then true
    else if b.toNat < a.toNat then false
    else lexLeb as bs

/-- Ascending region-code comparison (lexicographic on the characters). -/
def codeLeb (a b : String) : Bool := lexLeb a.data b.data

/-- Descending comparison on an optional appreciation value, missing values
ordered last. -/
def optDescLeb (x y : Option ℚ) : Bool :=
  match x, y with
  | some a, some b => decide (b ≤ a)
  | some _, none => true
  | none, some _ => false
  | none, none => true

/-- The row order of the scored table: composite score descending, ties
broken by appreciation percentage descending (missing last), then region
code ascending. -/
def rowLeb (a b : ScoredRegion) : Bool :=
  if a.composite_score = b.composite_score then
    if a.appreciation_pct = b.appreciation_pct then
      codeLeb a.region_name b.region_name
    else optDescLeb a.appreciation_pct b.appreciation_pct
  else decide (b.composite_score ≤ a.composite_score)

/-- The appreciation raw values present over the eligible universe (the
normalization population of the appreciation component). -/
def apprValsOf (ds : Datasets) (lo hi : ℚ) : List ℚ :=
  (eligibleUniverse ds.zhvi_zip lo hi).filterMap (fun p => appreciationPct p.1)

/-- The velocity raw values present over the eligible universe. -/
def velValsOf (ds : Datasets) (lo hi : ℚ) : List ℚ :=
  (eligibleUniverse ds.zhvi_zip lo hi).filterMap (fun p => velocityRaw ds p.1)

/-- The distress raw values present over the eligible universe. -/
def disValsOf (ds : Datasets) (lo hi : ℚ) : List ℚ :=
  (eligibleUniverse ds.zhvi_zip lo hi).filterMap (fun p => distressRaw ds p.1)

/-- The pricing-power raw values present over the eligible universe. -/
def ppValsOf (ds : Datasets) (lo hi : ℚ) : List ℚ :=
  (eligibleUniverse ds.zhvi_zip lo hi).filterMap (fun p => pricingPowerRaw ds p.1)

/-- The value-gap raw values present over the eligible universe. -/
def gapValsOf (ds : Datasets) (lo hi : ℚ) : List ℚ :=
  (eligibleUniverse ds.zhvi_zip lo hi).filterMap (fun p => valueGapRaw ds p.1 p.2)

/-- The scored rows of the eligible universe, before sorting: one row per
eligible region whose composite is defined (at least one component
present). -/
def eligibleScoredRows (ds : Datasets) (s : FlipStrategy) (lo hi : ℚ) :
    List ScoredRegion :=
  (eligibleUniverse ds.zhvi_zip lo hi).filterMap
    (scoreRow ds s (apprValsOf ds lo hi) (velValsOf ds lo hi)
      (disValsOf ds lo hi) (ppValsOf ds lo hi) (gapValsOf ds lo hi))

/-- Modelled from the spec: the scoring engine
(src.scoring_engine.flip_opportunity_score).  Fails with InvalidRangeError
when the price band is inverted; otherwise returns the scored eligible
rows, stably sorted by the row order. -/
def flip_opportunity_score (ds : Datasets) (s : FlipStrategy) (lo hi : ℚ) :
    Except ScoringError (List ScoredRegion) :=
  if hi < lo then .error .invalidRange
  else .ok ((eligibleScoredRows ds s lo hi).mergeSort rowLeb)

end Zillow

namespace Zillow

/-- C4: flip_opportunity_score fails with InvalidRangeError whenever the
minimum home value exceeds the maximum, the error being returned directly
at the call. -/
theorem C4_invalid_range (ds : Datasets) (s : FlipStrategy) (lo hi : ℚ)
    (h : hi < lo) :
    flip_opportunity_score ds s lo hi = .error .invalidRange := by
  simp [flip_opportunity_score, if_pos h]

/-- Sample datasets value: a single eligible region with one observed home
value period. -/
def dsW : Datasets where
  zhvi_zip := [⟨"90001", "Los Angeles", "CA", "Los Angeles-Long Beach", [some 100000]⟩]
  days_to_pending := fun z => if z = "90001" then some 20 else none
  price_cut_pct := fun z => if z = "90001" then some 5 else none
  sale_count := fun z => if z = "90001" then some 100 else none
  metro_value := fun m => if m = "Los Angeles-Long Beach" then some 120000 else none

theorem C4_invalid_range_witness :
    flip_opportunity_score dsW BALANCED 500000 100000 = .error .invalidRange :=
  C4_invalid_range dsW BALANCED 500000 100000 (by norm_num)

/-- C5: every constructible strategy satisfies the weight invariant (all
five weights nonnegative, sum within 1e-6 of 1), the invariant is enforced
at construction by mkFlipStrategy — any weight vector summing to 9/10
fails with InvalidStrategyError — and the three registry presets satisfy
it, so no scoring call observes an invalid strategy. -/
theorem C5_strategy_invariant :
    (∀ a v d p g s, mkFlipStrategy a v d p g = .ok s → s.Valid) ∧
    (∀ a v d p g, a + v + d + p + g = 9/10 →
      mkFlipStrategy a v d p g = .error .invalidStrategy) ∧
    FAST_FLIP.Valid ∧ VALUE_ADD_FLIP.Valid ∧ BALANCED.Valid := by
  refine ⟨?_, ?_, ?_, ?_, ?_⟩
  · intro a v d p g s h
    unfold mkFlipStrategy at h
    split at h
    · cases h
      assumption
    · cases h
  · intro a v d p g h
    unfold mkFlipStrategy
    rw [if_neg]
    intro hval
    have h2 := hval.2
    unfold FlipStrategy.weightSum at h2
    simp only at h2
    rw [h] at h2
    rw [abs_le] at h2
    have h3 := h2.1
    norm_num at h3
  · refine ⟨?_, ?_⟩
    · intro i
      fin_cases i <;> norm_num [FlipStrategy.weights, FAST_FLIP]
    · norm_num [FlipStrategy.weightSum, FAST_FLIP]
  · refine ⟨?_, ?_⟩
    · intro i
      fin_cases i <;> norm_num [FlipStrategy.weights, VALUE_ADD_FLIP]
    · norm_num [FlipStrategy.weightSum, VALUE_ADD_FLIP]
  · refine ⟨?_, ?_⟩
    · intro i
      fin_cases i <;> norm_num [FlipStrategy.weights, BALANCED]
    · norm_num [FlipStrategy.weightSum, BALANCED]

unseal Rat.add Rat.mul Rat.inv Rat.sub in
theorem C5_strategy_invariant_witness :
    FlipStrategy.Valid ⟨2/10, 2/10, 2/10, 2/10, 2/10⟩ ∧
    mkFlipStrategy (1/10) (2/10) (2/10) (2/10) (2/10) =
      .error .invalidStrategy :=
  ⟨C5_strategy_invariant.1 (2/10) (2/10) (2/10) (2/10) (2/10) _ (by rfl),
   C5_strategy_invariant.2.1 (1/10) (2/10) (2/10) (2/10) (2/10) (by decide)⟩

instance {α β : Type} [DecidableEq α] [DecidableEq β] :
    DecidableEq (Except α β) := fun a b =>
  match a, b with
  | .ok x, .ok y =>
    if h : x = y then isTrue (by rw [h])
    else isFalse (by intro hh; cases hh; exact h rfl)
  | .error x, .error y =>
    if h : x = y then isTrue (by rw [h])
    else isFalse (by intro hh; cases hh; exact h rfl)
  | .ok _, .error _ => isFalse (by intro hh; cases hh)
  | .error _, .ok _ => isFalse (by intro hh; cases hh)

lemma mem_eligibleUniverse {zhvi : List HomeValueRow} {lo hi : ℚ}
    {p : HomeValueRow × ℚ} :
    p ∈ eligibleUniverse zhvi lo hi ↔
      p.1 ∈ zhvi ∧ latestValue p.1 = some p.2 ∧ lo ≤ p.2 ∧ p.2 ≤ hi := by
  unfold eligibleUniverse
  rw [List.mem_filterMap]
  constructor
  · rintro ⟨hv, hmem, heq⟩
    rcases hlv : latestValue hv with _ | v
    · rw [hlv] at heq
      simp at heq
    · rw [hlv] at heq
      simp only at heq
      split at heq
      · cases heq
        exact ⟨hmem, hlv, by assumption⟩
      · cases heq
  · rintro ⟨h1, h2, h3, h4⟩
    refine ⟨p.1, h1, ?_⟩
    rw [h2]
    simp [if_pos (And.intro h3 h4)]

lemma normScore_nonneg (vals : List ℚ) (x : ℚ) : 0 ≤ normScore vals x :=
  le_max_left 0 _

lemma normScore_le_100 (vals : List ℚ) (x : ℚ) : normScore vals x ≤ 100 :=
  max_le (by norm_num) (min_le_left _ _)

lemma mem_presentComponents {sc : Fin 5 → Option ℚ} {i : Fin 5} :
    i ∈ presentComponents sc ↔ (sc i).isSome := by
  simp [presentComponents]

lemma compositeOf_bounds {w : Fin 5 → ℚ} {sc : Fin 5 → Option ℚ} {c : ℚ}
    (hw : ∀ i, 0 ≤ w i) (hsc : ∀ i x, sc i = some x → 0 ≤ x ∧ x ≤ 100)
    (h : compositeOf w sc = some c) : 0 ≤ c ∧ c ≤ 100 := by
  unfold compositeOf at h
  split at h
  · cases h
  · split at h
    · cases h
      norm_num
    · cases h
      rename_i hne hz
      have hvals : ∀ i ∈ presentComponents sc,
          0 ≤ (sc i).getD 0 ∧ (sc i).getD 0 ≤ 100 := by
        intro i hi
        rw [mem_presentComponents, Option.isSome_iff_exists] at hi
        obtain ⟨x, hx⟩ := hi
        rw [hx]
        exact hsc i x hx
      have hWnn : 0 ≤ ∑ i ∈ presentComponents sc, w i :=
        Finset.sum_nonneg (fun i _ => hw i)
      have hWpos : 0 < ∑ i ∈ presentComponents sc, w i :=
        lt_of_le_of_ne hWnn (Ne.symm hz)
      constructor
      · apply div_nonneg _ hWnn
        exact Finset.sum_nonneg
          (fun i hi => mul_nonneg (hw i) (hvals i hi).1)
      · rw [div_le_iff₀ hWpos]
        calc ∑ i ∈ presentComponents sc, w i * (sc i).getD 0
            ≤ ∑ i ∈ presentComponents sc, w i * 100 :=
              Finset.sum_le_sum
                (fun i hi => mul_le_mul_of_nonneg_left (hvals i hi).2 (hw i))
          _ = 100 * ∑ i ∈ presentComponents sc, w i := by
              rw [Finset.mul_sum]
              exact Finset.sum_congr rfl (fun i _ => mul_comm _ _)

lemma scoreRow_spec {ds : Datasets} {s : FlipStrategy}
    {A B C D E : List ℚ} {p : HomeValueRow × ℚ} {r : ScoredRegion}
    (h : scoreRow ds s A B C D E p = some r) :
    r.region_name = p.1.region_name ∧
    r.state = p.1.state ∧ r.metro = p.1.metro ∧
    r.current_value = p.2 ∧
    r.appreciation_pct = appreciationPct p.1 ∧
    r.days_to_pending = ds.days_to_pending p.1.region_name ∧
    r.componentScores = rawComponents ds A B C D E p ∧
    compositeOf s.weights r.componentScores = some r.composite_score := by
  unfold scoreRow at h
  split at h
  · cases h
  · rename_i c hc
    cases h
    have hcs : ScoredRegion.componentScores
        { region_name := p.1.region_name
          city := p.1.city
          state := p.1.state
          metro := p.1.metro
          current_value := p.2
          appreciation_score := rawComponents ds A B C D E p 0
          velocity_score := rawComponents ds A B C D E p 1
          distress_score := rawComponents ds A B C D E p 2
          pricing_power_score := rawComponents ds A B C D E p 3
          value_gap_score := rawComponents ds A B C D E p 4
          composite_score := c
          appreciation_pct := appreciationPct p.1
          days_to_pending := ds.days_to_pending p.1.region_name
          price_cut_pct := ds.price_cut_pct p.1.region_name } =
        rawComponents ds A B C D E p := by
      funext i
      fin_cases i <;> rfl
    refine ⟨rfl, rfl, rfl, rfl, rfl, rfl, hcs, ?_⟩
    rw [hcs]
    exact hc

lemma rawComponents_bounds {ds : Datasets} {A B C D E : List ℚ}
    {p : HomeValueRow × ℚ} {i : Fin 5} {x : ℚ}
    (hx : rawComponents ds A B C D E p i = some x) : 0 ≤ x ∧ x ≤ 100 := by
  have hb : ∀ (o : Option ℚ) (vals : List ℚ),
      o.map (normScore vals) = some x → 0 ≤ x ∧ x ≤ 100 := by
    intro o vals ho
    rcases o with _ | y
    · cases ho
    · cases ho
      exact ⟨normScore_nonneg vals y, normScore_le_100 vals y⟩
  fin_cases i
  · exact hb _ A hx
  · exact hb _ B hx
  · exact hb _ C hx
  · exact hb _ D hx
  · exact hb _ E hx

lemma mem_eligibleScoredRows {ds : Datasets} {s : FlipStrategy} {lo hi : ℚ}
    {r : ScoredRegion} :
    r ∈ eligibleScoredRows ds s lo hi ↔
      ∃ p ∈ eligibleUniverse ds.zhvi_zip lo hi,
        scoreRow ds s (apprValsOf ds lo hi) (velValsOf ds lo hi)
          (disValsOf ds lo hi) (ppValsOf ds lo hi) (gapValsOf ds lo hi) p =
          some r := by
  unfold eligibleScoredRows
  rw [List.mem_filterMap]

lemma score_ok_mem {ds : Datasets} {s : FlipStrategy} {lo hi : ℚ}
    {rows : List ScoredRegion} {r : ScoredRegion}
    (h : flip_opportunity_score ds s lo hi = .ok rows) (hr : r ∈ rows) :
    r ∈ eligibleScoredRows ds s lo hi := by
  unfold flip_opportunity_score at h
  split at h
  · cases h
  · cases h
    rw [List.mem_mergeSort] at hr
    exact hr

/-- C7: a scoring call with a valid range and an empty eligible universe
returns an empty table rather than raising, and the only error the engine
ever returns is the invalid-range error (there is no empty-universe
error), so the core never fails merely because the result is empty. -/
theorem C7_empty_universe :
    (∀ ds s lo hi, ¬ hi < lo → eligibleUniverse ds.zhvi_zip lo hi = [] →
      flip_opportunity_score ds s lo hi = .ok []) ∧
    (∀ ds s lo hi e, flip_opportunity_score ds s lo hi = .error e →
      e = .invalidRange ∧ hi < lo) := by
  constructor
  · intro ds s lo hi hrange hempty
    unfold flip_opportunity_score
    rw [if_neg hrange]
    unfold eligibleScoredRows
    rw [hempty]
    simp
  · intro ds s lo hi e h
    unfold flip_opportunity_score at h
    split at h
    · cases h
      exact ⟨rfl, by assumption⟩
    · cases h

/-- Sample datasets value with no regions at all. -/
def dsEmpty : Datasets where
  zhvi_zip := []
  days_to_pending := fun _ => none
  price_cut_pct := fun _ => none
  sale_count := fun _ => none
  metro_value := fun _ => none

theorem C7_empty_universe_witness :
    flip_opportunity_score dsEmpty BALANCED 50000 500000 = .ok [] :=
  C7_empty_universe.1 dsEmpty BALANCED 50000 500000 (by decide) (by rfl)

/-- C3: every row returned by a scoring call with a valid strategy has a
composite score in the closed interval from 0 to 100 and a current value
inside the inclusive price band; no region outside the band appears. -/
theorem C3_output_bounds (ds : Datasets) (s : FlipStrategy) (lo hi : ℚ)
    (rows : List ScoredRegion) (hs : s.Valid)
    (h : flip_opportunity_score ds s lo hi = .ok rows) :
    ∀ r ∈ rows, (0 ≤ r.composite_score ∧ r.composite_score ≤ 100) ∧
      lo ≤ r.current_value ∧ r.current_value ≤ hi := by
  intro r hr
  have hmem := score_ok_mem h hr
  rw [mem_eligibleScoredRows] at hmem
  obtain ⟨p, hp, hrow⟩ := hmem
  have hspec := scoreRow_spec hrow
  constructor
  · refine compositeOf_bounds (fun i => hs.1 i) ?_ hspec.2.2.2.2.2.2.2
    intro i x hx
    rw [hspec.2.2.2.2.2.2.1] at hx
    exact rawComponents_bounds hx
  · rw [hspec.2.2.2.1]
    have := mem_eligibleUniverse.mp hp
    exact ⟨this.2.2.1, this.2.2.2⟩

/-- The single row produced by scoring dsW with the balanced strategy on
the band from 50000 to 500000. -/
def rW : ScoredRegion where
  region_name := "90001"
  city := "Los Angeles"
  state := "CA"
  metro := "Los Angeles-Long Beach"
  current_value := 100000
  appreciation_score := none
  velocity_score := some 0
  distress_score := some 0
  pricing_power_score := some 0
  value_gap_score := some 0
  composite_score := 0
  appreciation_pct := none
  days_to_pending := some 20
  price_cut_pct := some 5

unseal Rat.add Rat.mul Rat.inv Rat.sub List.merge List.mergeSort in
theorem C3_output_bounds_witness :
    (0 ≤ rW.composite_score ∧ rW.composite_score ≤ 100) ∧
      (50000 : ℚ) ≤ rW.current_value ∧ rW.current_value ≤ 500000 :=
  C3_output_bounds dsW BALANCED 50000 500000 [rW] (by decide) (by decide)
    rW (by decide)

lemma presentComponents_eq_erase {sc : Fin 5 → Option ℚ} {i : Fin 5}
    (hnone : sc i = none) (hsome : ∀ j, j ≠ i → (sc j).isSome) :
    presentComponents sc = Finset.univ.erase i := by
  ext j
  rw [mem_presentComponents, Finset.mem_erase]
  constructor
  · intro hj
    refine ⟨?_, Finset.mem_univ j⟩
    intro hji
    rw [hji, hnone] at hj
    cases hj
  · rintro ⟨hne, _⟩
    exact hsome j hne

lemma compositeOf_one_missing {w : Fin 5 → ℚ} {sc : Fin 5 → Option ℚ}
    {i : Fin 5} {c : ℚ} (hnone : sc i = none)
    (hsome : ∀ j, j ≠ i → (sc j).isSome)
    (hpos : 0 < ∑ j ∈ Finset.univ.erase i, w j)
    (hc : compositeOf w sc = some c) :
    c = (∑ j ∈ Finset.univ.erase i, w j * (sc j).getD 0) /
      ∑ j ∈ Finset.univ.erase i, w j := by
  have hpc := presentComponents_eq_erase hnone hsome
  unfold compositeOf at hc
  rw [hpc] at hc
  have hcard : (Finset.univ.erase i).card = 4 := by
    rw [Finset.card_erase_of_mem (Finset.mem_univ i)]
    simp
  have hne : (Finset.univ.erase i : Finset (Fin 5)) ≠ ∅ := by
    intro hemp
    rw [hemp] at hcard
    simp at hcard
  rw [if_neg hne, if_neg hpos.ne'] at hc
  cases hc
  rfl

lemma optDescLeb_trans {x y z : Option ℚ} (h1 : optDescLeb x y = true)
    (h2 : optDescLeb y z = true) : optDescLeb x z = true := by
  rcases x with _ | a <;> rcases y with _ | b <;> rcases z with _ | c <;>
    simp [optDescLeb] at h1 h2 ⊢
  exact le_trans h2 h1

lemma optDescLeb_antisymm {x y : Option ℚ} (h1 : optDescLeb x y = true)
    (h2 : optDescLeb y x = true) : x = y := by
  rcases x with _ | a <;> rcases y with _ | b <;>
    simp [optDescLeb] at h1 h2 ⊢
  exact le_antisymm h2 h1

lemma lexLeb_total (as bs : List Char) :
    lexLeb as bs = true ∨ lexLeb bs as = true := by
  induction as generalizing bs with
  | nil => left; rfl
  | cons a as ih =>
    cases bs with
    | nil => right; rfl
    | cons b bs =>
      unfold lexLeb
      rcases Nat.lt_trichotomy a.toNat b.toNat with h | h | h
      · left
        rw [if_pos h]
      · rw [if_neg (by omega), if_neg (by omega), if_neg (by omega),
          if_neg (by omega)]
        exact ih bs
      · right
        rw [if_pos h]

lemma lexLeb_trans {as bs cs : List Char} (h1 : lexLeb as bs = true)
    (h2 : lexLeb bs cs = true) : lexLeb as cs = true := by
  induction as generalizing bs cs with
  | nil => rfl
  | cons a as ih =>
    cases bs with
    | nil => simp [lexLeb] at h1
    | cons b bs =>
      cases cs with
      | nil => simp [lexLeb] at h2
      | cons c cs =>
        unfold lexLeb at h1 h2 ⊢
        by_cases hab : a.toNat < b.toNat
        · by_cases hbc : b.toNat < c.toNat
          · rw [if_pos (by omega)]
          · rw [if_pos hab] at h1
            rw [if_neg hbc] at h2
            by_cases hcb : c.toNat < b.toNat
            · rw [if_pos hcb] at h2
              cases h2
            · rw [if_pos (by omega)]
        · rw [if_neg hab] at h1
          by_cases hba : b.toNat < a.toNat
          · rw [if_pos hba] at h1
            cases h1
          · by_cases hbc : b.toNat < c.toNat
            · rw [if_pos (by omega)]
            · rw [if_neg hbc] at h2
              by_cases hcb : c.toNat < b.toNat
              · rw [if_pos hcb] at h2
                cases h2
              · rw [if_neg hba] at h1
                rw [if_neg hcb] at h2
                rw [if_neg (by omega), if_neg (by omega)]
                exact ih h1 h2

lemma rowLeb_total (a b : ScoredRegion) :
    rowLeb a b = true ∨ rowLeb b a = true := by
  unfold rowLeb
  by_cases h1 : a.composite_score = b.composite_score
  · rw [if_pos h1, if_pos h1.symm]
    by_cases h2 : a.appreciation_pct = b.appreciation_pct
    · rw [if_pos h2, if_pos h2.symm]
      exact lexLeb_total _ _
    · rw [if_neg h2, if_neg (fun hh => h2 hh.symm)]
      rcases a.appreciation_pct with _ | x <;>
        rcases b.appreciation_pct with _ | y <;> simp [optDescLeb]
      exact le_total y x
  · rw [if_neg h1, if_neg (fun hh => h1 hh.symm)]
    simp only [decide_eq_true_eq]
    exact le_total _ _

lemma rowLeb_trans {a b c : ScoredRegion} (h1 : rowLeb a b = true)
    (h2 : rowLeb b c = true) : rowLeb a c = true := by
  unfold rowLeb at h1 h2 ⊢
  by_cases hab : a.composite_score = b.composite_score
  · rw [if_pos hab] at h1
    by_cases hbc : b.composite_score = c.composite_score
    · rw [if_pos hbc] at h2
      rw [if_pos (hab.trans hbc)]
      by_cases hap : a.appreciation_pct = b.appreciation_pct
      · rw [if_pos hap] at h1
        by_cases hbp : b.appreciation_pct = c.appreciation_pct
        · rw [if_pos hbp] at h2
          rw [if_pos (hap.trans hbp)]
          exact lexLeb_trans h1 h2
        · rw [if_neg hbp] at h2
          rw [if_neg (fun hh => hbp (hap.symm.trans hh)), hap]
          exact h2
      · rw [if_neg hap] at h1
        by_cases hbp : b.appreciation_pct = c.appreciation_pct
        · rw [if_neg (fun hh => hap (hh.trans hbp.symm)), ← hbp]
          exact h1
        · rw [if_neg hbp] at h2
          by_cases hac : a.appreciation_pct = c.appreciation_pct
          · exfalso
            rw [hac] at h1
            exact hbp (optDescLeb_antisymm h2 h1)
          · rw [if_neg hac]
            exact optDescLeb_trans h1 h2
    · rw [if_neg hbc] at h2
      simp only [decide_eq_true_eq] at h2
      have hlt : c.composite_score < b.composite_score :=
        lt_of_le_of_ne h2 (fun hh => hbc hh.symm)
      have hac : a.composite_score ≠ c.composite_score := by
        rw [hab]
        exact fun hh => absurd hh.symm (ne_of_lt hlt)
      rw [if_neg hac]
      simp only [decide_eq_true_eq]
      rw [hab]
      exact le_of_lt hlt
  · rw [if_neg hab] at h1
    simp only [decide_eq_true_eq] at h1
    have hlt1 : b.composite_score < a.composite_score :=
      lt_of_le_of_ne h1 (fun hh => hab hh.symm)
    by_cases hbc : b.composite_score = c.composite_score
    · have hac : a.composite_score ≠ c.composite_score := by
        rw [← hbc]
        exact hab
      rw [if_neg hac]
      simp only [decide_eq_true_eq]
      rw [← hbc]
      exact le_of_lt hlt1
    · rw [if_neg hbc] at h2
      simp only [decide_eq_true_eq] at h2
      have hlt2 : c.composite_score < b.composite_score :=
        lt_of_le_of_ne h2 (fun hh => hbc hh.symm)
      have hac : a.composite_score ≠ c.composite_score :=
        fun hh => absurd hh.symm (ne_of_lt (lt_trans hlt2 hlt1))
      rw [if_neg hac]
      simp only [decide_eq_true_eq]
      exact le_of_lt (lt_trans hlt2 hlt1)

lemma rowLeb_total_bool (a b : ScoredRegion) :
    (rowLeb a b || rowLeb b a) = true := by
  rcases rowLeb_total a b with h | h <;> simp [h]

lemma score_ok_rows {ds : Datasets} {s : FlipStrategy} {lo hi : ℚ}
    {rows : List ScoredRegion}
    (h : flip_opportunity_score ds s lo hi = .ok rows) :
    rows = (eligibleScoredRows ds s lo hi).mergeSort rowLeb := by
  unfold flip_opportunity_score at h
  split at h
  · cases h
  · cases h
    rfl

/-- C1: missing-component policy of the scoring engine.  For every returned
row with exactly one missing component whose remaining weight mass is
positive, the composite equals the weighted sum of the present components
divided by the sum of their weights (proportional redistribution, not
zero-filling); a region all five of whose signals are missing contributes
no row at all; and a region with fewer than 12 observed home-value periods
has a missing appreciation signal. -/
theorem C1_missing_component_policy (ds : Datasets) (s : FlipStrategy)
    (lo hi : ℚ) (rows : List ScoredRegion)
    (h : flip_opportunity_score ds s lo hi = .ok rows) :
    (∀ r ∈ rows, ∀ i : Fin 5, r.componentScores i = none →
      (∀ j : Fin 5, j ≠ i → (r.componentScores j).isSome) →
      0 < ∑ j ∈ Finset.univ.erase i, s.weights j →
      r.composite_score =
        (∑ j ∈ Finset.univ.erase i,
          s.weights j * (r.componentScores j).getD 0) /
          ∑ j ∈ Finset.univ.erase i, s.weights j) ∧
    (∀ z, (∀ p ∈ eligibleUniverse ds.zhvi_zip lo hi,
        p.1.region_name = z →
        appreciationPct p.1 = none ∧ ds.days_to_pending z = none ∧
        ds.price_cut_pct z = none ∧ ds.sale_count z = none ∧
        ds.metro_value p.1.metro = none) →
      ∀ r ∈ rows, r.region_name ≠ z) ∧
    (∀ hv : HomeValueRow, (hv.series.filterMap id).length < 12 →
      appreciationPct hv = none) := by
  refine ⟨?_, ?_, ?_⟩
  · intro r hr i hnone hsome hpos
    have hmem := score_ok_mem h hr
    rw [mem_eligibleScoredRows] at hmem
    obtain ⟨p, hp, hrow⟩ := hmem
    have hspec := scoreRow_spec hrow
    exact compositeOf_one_missing hnone hsome hpos hspec.2.2.2.2.2.2.2
  · intro z hall r hr hz
    have hmem := score_ok_mem h hr
    rw [mem_eligibleScoredRows] at hmem
    obtain ⟨p, hp, hrow⟩ := hmem
    have hspec := scoreRow_spec hrow
    have hname : p.1.region_name = z := by
      rw [← hspec.1]
      exact hz
    obtain ⟨ha, hd, hc, hs, hm⟩ := hall p hp hname
    have hraw : ∀ j, rawComponents ds (apprValsOf ds lo hi)
        (velValsOf ds lo hi) (disValsOf ds lo hi) (ppValsOf ds lo hi)
        (gapValsOf ds lo hi) p j = none := by
      intro j
      fin_cases j
      · simp [rawComponents, ha]
      · simp [rawComponents, velocityRaw, hname, hd]
      · simp [rawComponents, distressRaw, hname, hc]
      · simp [rawComponents, pricingPowerRaw, hname, hs]
      · simp [rawComponents, valueGapRaw, hm]
    have hpres : presentComponents (rawComponents ds (apprValsOf ds lo hi)
        (velValsOf ds lo hi) (disValsOf ds lo hi) (ppValsOf ds lo hi)
        (gapValsOf ds lo hi) p) = ∅ := by
      ext j
      simp [mem_presentComponents, hraw j]
    unfold scoreRow at hrow
    rw [show compositeOf s.weights (rawComponents ds (apprValsOf ds lo hi)
        (velValsOf ds lo hi) (disValsOf ds lo hi) (ppValsOf ds lo hi)
        (gapValsOf ds lo hi) p) = none from by
      unfold compositeOf
      rw [if_pos hpres]] at hrow
    cases hrow
  · intro hv hlen
    unfold appreciationPct
    rw [if_neg (by omega)]

unseal Rat.add Rat.mul Rat.inv Rat.sub List.merge List.mergeSort in
theorem C1_missing_component_policy_witness :
    rW.composite_score =
      (∑ j ∈ Finset.univ.erase (0 : Fin 5),
        BALANCED.weights j * ((rW.componentScores j).getD 0)) /
        ∑ j ∈ Finset.univ.erase (0 : Fin 5), BALANCED.weights j :=
  (C1_missing_component_policy dsW BALANCED 50000 500000 [rW]
    (by decide)).1 rW (by decide) 0 (by decide) (by decide) (by decide)

/-- C2: the returned table is sorted by the total row order (composite
score descending, appreciation percentage descending, region code
ascending), the order relation is total, the sort is stable (any sorted
sublist of the pre-sort row list is still a sublist of the output), and
scoring the same inputs again yields the identical row order. -/
theorem C2_sort_order (ds : Datasets) (s : FlipStrategy) (lo hi : ℚ)
    (rows : List ScoredRegion)
    (h : flip_opportunity_score ds s lo hi = .ok rows) :
    List.Pairwise (fun a b => rowLeb a b = true) rows ∧
    (∀ a b : ScoredRegion, rowLeb a b = true ∨ rowLeb b a = true) ∧
    (∀ c : List ScoredRegion, List.Pairwise (fun a b => rowLeb a b = true) c →
      c.Sublist (eligibleScoredRows ds s lo hi) → c.Sublist rows) ∧
    (∀ rows2, flip_opportunity_score ds s lo hi = .ok rows2 →
      rows2 = rows) := by
  have hrows := score_ok_rows h
  refine ⟨?_, rowLeb_total, ?_, ?_⟩
  · rw [hrows]
    exact @List.sorted_mergeSort ScoredRegion rowLeb
      (fun a b c h1 h2 => rowLeb_trans h1 h2) rowLeb_total_bool _
  · intro c hc hsub
    rw [hrows]
    exact @List.sublist_mergeSort ScoredRegion rowLeb _
      (fun a b c h1 h2 => rowLeb_trans h1 h2) rowLeb_total_bool c hc hsub
  · intro rows2 h2
    rw [h] at h2
    cases h2
    rfl

unseal Rat.add Rat.mul Rat.inv Rat.sub List.merge List.mergeSort in
theorem C2_sort_order_witness :
    List.Pairwise (fun a b => rowLeb a b = true) [rW] ∧
    (rowLeb rW rW = true ∨ rowLeb rW rW = true) :=
  ⟨(C2_sort_order dsW BALANCED 50000 500000 [rW] (by decide)).1,
   (C2_sort_order dsW BALANCED 50000 500000 [rW] (by decide)).2.1 rW rW⟩

/-- Modelled from the spec: the opportunity filter
(src.scoring_engine.filter_opportunities, called at streamlit_app.py lines
176-181).  min_score is an inclusive lower bound; a None or empty state or
metro selection imposes no geographic restriction. -/
def filter_opportunities (scored : List ScoredRegion) (min_score : ℚ)
    (states : Option (List String)) (metros : Option (List String)) :
    List ScoredRegion :=
  scored.filter (fun r =>
    decide (min_score ≤ r.composite_score) &&
    (match states with
     | none => true
     | some l => l.isEmpty || l.contains r.state) &&
    (match metros with
     | none => true
     | some l => l.isEmpty || l.contains r.metro))

/-- C6: filtering with a zero score floor and no geographic selection is
the identity on a scored table (whose composite scores are nonnegative);
an empty selection list behaves exactly like None (no restriction); and
the filter always preserves the input's order (its output is a sublist of
the input). -/
theorem C6_filter_identity :
    (∀ scored : List ScoredRegion, (∀ r ∈ scored, 0 ≤ r.composite_score) →
      filter_opportunities scored 0 none none = scored) ∧
    (∀ (scored : List ScoredRegion) (min_score : ℚ),
      filter_opportunities scored min_score (some []) (some []) =
        filter_opportunities scored min_score none none) ∧
    (∀ (scored : List ScoredRegion) (min_score : ℚ) states metros,
      (filter_opportunities scored min_score states metros).Sublist
        scored) := by
  refine ⟨?_, ?_, ?_⟩
  · intro scored hpos
    apply List.filter_eq_self.mpr
    intro r hr
    simp [hpos r hr]
  · intro scored min_score
    rfl
  · intro scored min_score states metros
    exact List.filter_sublist scored

theorem C6_filter_identity_witness :
    filter_opportunities [rW] 0 none none = [rW] :=
  C6_filter_identity.1 [rW] (by decide)

/-- The geographic aggregation level of the summarizer. -/
inductive GeoLevel where
  | state
  | metro
deriving DecidableEq

/-- The grouping attribute selected by a level. -/
def levelKey : GeoLevel → ScoredRegion → String
  | .state => fun r => r.state
  | .metro => fun r => r.metro

/-- One output row of the geography summarizer (spec section 3,
GeographySummary). -/
structure GeographySummary where
  key : String
  num_opportunities : ℕ
  avg_score : ℚ
  median_value : ℚ
  avg_appreciation : Option ℚ
deriving DecidableEq

/-- Arithmetic mean of a list of rationals (junk value 0 on the empty
list, which never arises for a group). -/
def meanQ (l : List ℚ) : ℚ := l.sum / l.length

/-- Statistical median of a list of rationals: middle element of the
sorted list, or the average of the two middle elements for an even
length. -/
def medianQ (l : List ℚ) : ℚ :=
  if (l.mergeSort (fun a b => decide (a ≤ b))).length % 2 = 1 then
    (l.mergeSort (fun a b => decide (a ≤ b))).getD
      ((l.mergeSort (fun a b => decide (a ≤ b))).length / 2) 0
  else
    ((l.mergeSort (fun a b => decide (a ≤ b))).getD
        ((l.mergeSort (fun a b => decide (a ≤ b))).length / 2 - 1) 0 +
      (l.mergeSort (fun a b => decide (a ≤ b))).getD
        ((l.mergeSort (fun a b => decide (a ≤ b))).length / 2) 0) / 2

/-- The rows of a scored table belonging to one geographic group. -/
def groupRows (scored : List ScoredRegion) (level : GeoLevel) (k : String) :
    List ScoredRegion :=
  scored.filter (fun r => decide (levelKey level r = k))

/-- The aggregate row of one geographic group: row count, mean composite
score, median current value, mean of the present appreciation
percentages. -/
def summaryRowOf (scored : List ScoredRegion) (level : GeoLevel)
    (k : String) : GeographySummary where
  key := k
  num_opportunities := (groupRows scored level k).length
  avg_score :=
    meanQ ((groupRows scored level k).map (fun r => r.composite_score))
  median_value :=
    medianQ ((groupRows scored level k).map (fun r => r.current_value))
  avg_appreciation :=
    if ((groupRows scored level k).filterMap
        (fun r => r.appreciation_pct)) = [] then none
    else some (meanQ ((groupRows scored level k).filterMap
      (fun r => r.appreciation_pct)))

/-- Modelled from the spec: the geography summarizer
(src.scoring_engine.summarize_by_geography, called at streamlit_app.py
lines 309 and 362).  One aggregate row per distinct group key occurring in
the input. -/
def summarize_by_geography (scored : List ScoredRegion) (level : GeoLevel) :
    List GeographySummary :=
  ((scored.map (levelKey level)).dedup).map (summaryRowOf scored level)

lemma summarize_mem_spec {scored : List ScoredRegion} {level : GeoLevel}
    {g : GeographySummary} (hg : g ∈ summarize_by_geography scored level) :
    groupRows scored level g.key ≠ [] ∧
    g.num_opportunities = (groupRows scored level g.key).length ∧
    g.avg_score =
      meanQ ((groupRows scored level g.key).map
        (fun r => r.composite_score)) ∧
    g.median_value =
      medianQ ((groupRows scored level g.key).map
        (fun r => r.current_value)) ∧
    g.avg_appreciation =
      (if ((groupRows scored level g.key).filterMap
          (fun r => r.appreciation_pct)) = [] then none
        else some (meanQ ((groupRows scored level g.key).filterMap
          (fun r => r.appreciation_pct)))) := by
  unfold summarize_by_geography at hg
  rw [List.mem_map] at hg
  obtain ⟨k, hk, hgk⟩ := hg
  subst hgk
  refine ⟨?_, rfl, rfl, rfl, rfl⟩
  rw [List.mem_dedup, List.mem_map] at hk
  obtain ⟨r, hr, hrk⟩ := hk
  intro hempty
  have hrg : r ∈ groupRows scored level k := by
    unfold groupRows
    rw [List.mem_filter]
    exact ⟨hr, by simp [hrk]⟩
  have hkk : (summaryRowOf scored level k).key = k := rfl
  rw [hkk] at hempty
  rw [hempty] at hrg
  cases hrg

/-- C8: the geography summarizer returns exactly one row per non-empty
group of the chosen attribute — every output row's group is non-empty and
carries the group's row count, the arithmetic mean of its composite
scores, the median of its current values and the mean of its present
appreciation percentages; every non-empty group is represented; and group
keys are pairwise distinct (no group appears twice, no empty group is
synthesized). -/
theorem C8_summarize (scored : List ScoredRegion) (level : GeoLevel) :
    (∀ g ∈ summarize_by_geography scored level,
      groupRows scored level g.key ≠ [] ∧
      g.num_opportunities = (groupRows scored level g.key).length ∧
      g.avg_score =
        meanQ ((groupRows scored level g.key).map
          (fun r => r.composite_score)) ∧
      g.median_value =
        medianQ ((groupRows scored level g.key).map
          (fun r => r.current_value)) ∧
      g.avg_appreciation =
        (if ((groupRows scored level g.key).filterMap
            (fun r => r.appreciation_pct)) = [] then none
          else some (meanQ ((groupRows scored level g.key).filterMap
            (fun r => r.appreciation_pct))))) ∧
    (∀ k, groupRows scored level k ≠ [] →
      ∃ g ∈ summarize_by_geography scored level, g.key = k) ∧
    ((summarize_by_geography scored level).map
      (fun g => g.key)).Nodup := by
  refine ⟨fun g hg => summarize_mem_spec hg, ?_, ?_⟩
  · intro k hk
    obtain ⟨r, hr⟩ := List.exists_mem_of_ne_nil _ hk
    unfold groupRows at hr
    rw [List.mem_filter] at hr
    have hkey : levelKey level r = k := by
      have := hr.2
      simpa using this
    refine ⟨_, List.mem_map_of_mem _ ?_, rfl⟩
    rw [List.mem_dedup]
    rw [← hkey]
    exact List.mem_map_of_mem _ hr.1
  · unfold summarize_by_geography
    rw [List.map_map]
    have hcomp : ((fun g : GeographySummary => g.key) ∘
        summaryRowOf scored level) = fun k => k := rfl
    rw [hcomp]
    simpa using List.nodup_dedup (scored.map (levelKey level))

/-- Sample scored row with the given region code, state, metro and
composite score. -/
def sampleRow (z st me : String) (c : ℚ) : ScoredRegion where
  region_name := z
  city := "C"
  state := st
  metro := me
  current_value := 100000
  appreciation_score := none
  velocity_score := some c
  distress_score := none
  pricing_power_score := none
  value_gap_score := none
  composite_score := c
  appreciation_pct := none
  days_to_pending := none
  price_cut_pct := none

/-- Sample scored table: five rows in CA and three in TX. -/
def ctable : List ScoredRegion :=
  [sampleRow "1" "CA" "MA" 80, sampleRow "2" "CA" "MA" 70,
   sampleRow "3" "CA" "MA" 60, sampleRow "4" "CA" "MB" 50,
   sampleRow "5" "CA" "MB" 40, sampleRow "6" "TX" "MC" 30,
   sampleRow "7" "TX" "MC" 20, sampleRow "8" "TX" "MC" 10]

unseal Rat.add Rat.mul Rat.inv Rat.sub List.merge List.mergeSort in
theorem C8_summarize_witness :
    (∃ g ∈ summarize_by_geography ctable GeoLevel.state, g.key = "CA") ∧
    (⟨"CA", 5, 60, 100000, none⟩ : GeographySummary).num_opportunities =
      (groupRows ctable GeoLevel.state
        (⟨"CA", 5, 60, 100000, none⟩ : GeographySummary).key).length :=
  ⟨(C8_summarize ctable GeoLevel.state).2.1 "CA" (by decide),
   ((C8_summarize ctable GeoLevel.state).1 ⟨"CA", 5, 60, 100000, none⟩
     (by decide)).2.1⟩

/-- Round a rational to one decimal place (display-only rounding applied
to the on-screen score columns, streamlit_app.py lines 244-249). -/
def round1 (x : ℚ) : ℚ := (round (10 * x) : ℤ) / 10

/-- Display-only currency text for a home value
(streamlit_app.py line 243; digit grouping is not modelled). -/
def fmtUSD (x : ℚ) : String := "$" ++ toString (round x : ℤ)

/-- Display-only percentage text with one decimal
(streamlit_app.py lines 250 and 254). -/
def fmtPct1 (x : ℚ) : String := toString (round1 x) ++ "%"

/-- One row of the on-screen top-opportunities table after the display
formatting of streamlit_app.py lines 241-256: rank added, currency and
percentage columns turned into text, score columns rounded to one
decimal. -/
structure DisplayRow where
  rank : ℕ
  region_name : String
  city : String
  state : String
  metro : String
  current_value : String
  composite_score : ℚ
  appreciation_score : Option ℚ
  velocity_score : Option ℚ
  distress_score : Option ℚ
  pricing_power_score : Option ℚ
  value_gap_score : Option ℚ
  appreciation_pct : String
  days_to_pending : String
  price_cut_pct : String
deriving DecidableEq

/-- The display formatting of one row (streamlit_app.py lines 242-256);
the appreciation percentage is formatted unconditionally in the source, so
a missing value renders as the text of a missing number, while days to
pending and price-cut percentage render as N/A when missing. -/
def formatDisplayRow (i : ℕ) (r : ScoredRegion) : DisplayRow where
  rank := i + 1
  region_name := r.region_name
  city := r.city
  state := r.state
  metro := r.metro
  current_value := fmtUSD r.current_value
  composite_score := round1 r.composite_score
  appreciation_score := r.appreciation_score.map round1
  velocity_score := r.velocity_score.map round1
  distress_score := r.distress_score.map round1
  pricing_power_score := r.pricing_power_score.map round1
  value_gap_score := r.value_gap_score.map round1
  appreciation_pct :=
    match r.appreciation_pct with
    | some x => fmtPct1 x
    | none => "nan%"
  days_to_pending :=
    match r.days_to_pending with
    | some x => toString (round x : ℤ)
    | none => "N/A"
  price_cut_pct :=
    match r.price_cut_pct with
    | some x => fmtPct1 x
    | none => "N/A"

/-- The two artifacts produced by the top-opportunities tab: the formatted
on-screen table and the row sequence serialized to the CSV download. -/
structure Tab1Render where
  display : List DisplayRow
  csvRows : List ScoredRegion
deriving DecidableEq

/-- The top-opportunities tab of streamlit_app.py (lines 183-299): the
display table is the top-N prefix of the filtered table, formatted on a
copy; the CSV download serializes filtered_scores itself (line 293), not
the truncated or formatted display copy. -/
def renderTab1 (filtered_scores : List ScoredRegion) (top_n : ℕ) :
    Tab1Render where
  display :=
    (filtered_scores.take top_n).enum.map (fun q => formatDisplayRow q.1 q.2)
  csvRows := filtered_scores

/-- C9: the CSV export serializes the full filtered table — every row,
every column, with the original unrounded numeric values — independently
of the displayed top-N truncation: the export equals the filtered input
itself, is unchanged when the top-N parameter changes, and is generally
longer than the display table, whose rows carry the rounded copies. -/
theorem C9_export_full_precision (filtered : List ScoredRegion)
    (top_n : ℕ) :
    (renderTab1 filtered top_n).csvRows = filtered ∧
    (∀ m : ℕ, (renderTab1 filtered top_n).csvRows =
      (renderTab1 filtered m).csvRows) ∧
    (renderTab1 filtered top_n).csvRows.length = filtered.length ∧
    (renderTab1 filtered top_n).display.length =
      min top_n filtered.length ∧
    (renderTab1 filtered top_n).display =
      (filtered.take top_n).enum.map
        (fun q => formatDisplayRow q.1 q.2) := by
  refine ⟨rfl, fun m => rfl, rfl, ?_, rfl⟩
  unfold renderTab1
  simp [List.length_take]

/-- The metro-analysis ranking of streamlit_app.py lines 362-367: the
metro summary of the filtered table is restricted to metros with at least
3 qualifying ZIP rows, then sorted by average score descending and cut to
the top 20. -/
def metroAnalysisTop (filtered : List ScoredRegion) :
    List GeographySummary :=
  (((summarize_by_geography filtered GeoLevel.metro).filter
      (fun g => decide (3 ≤ g.num_opportunities))).mergeSort
    (fun a b => decide (b.avg_score ≤ a.avg_score))).take 20

/-- C10: a metro with fewer than 3 qualifying ZIP rows in the filtered
table never appears in the top-metros display, whatever its average
score. -/
theorem C10_metro_min3 (filtered : List ScoredRegion) (m : String)
    (hm : (groupRows filtered GeoLevel.metro m).length < 3) :
    ∀ g ∈ metroAnalysisTop filtered, g.key ≠ m := by
  intro g hg hk
  unfold metroAnalysisTop at hg
  have hg1 := List.mem_of_mem_take hg
  rw [List.mem_mergeSort, List.mem_filter] at hg1
  have hnum : 3 ≤ g.num_opportunities := by
    have := hg1.2
    simpa using this
  have hspec := summarize_mem_spec hg1.1
  rw [hspec.2.1, hk] at hnum
  omega

/-- Sample filtered table: two rows in metro M and three in metro N. -/
def cfW : List ScoredRegion :=
  [sampleRow "1" "CA" "M" 80, sampleRow "2" "CA" "M" 70,
   sampleRow "6" "TX" "N" 30, sampleRow "7" "TX" "N" 20,
   sampleRow "8" "TX" "N" 10]

unseal Rat.add Rat.mul Rat.inv Rat.sub List.merge List.mergeSort in
theorem C10_metro_min3_witness :
    (⟨"N", 3, 20, 100000, none⟩ : GeographySummary).key ≠ "M" :=
  C10_metro_min3 cfW "M" (by decide) ⟨"N", 3, 20, 100000, none⟩ (by decide)

end Zillow
